import Mathlib

/-!
Verification of the generic parameter-encoding, path-building and
response/error-metadata layer of the imagekit Go client
(`src/api/api.go`), against its natural-language specification.

The Go code is shallowly embedded:

* the generic interchange value produced by `json.Marshal` /
  `json.Unmarshal` into `map[string]interface{}` is the inductive type
  `Json`; a struct's generic mapping is an association list
  `List (String × Json)` (Go iterates the map in an unspecified order;
  order-independence of the result is proved as a theorem);
* `url.Values` (a map from keys to slices of values, populated by
  `Add`, which appends) is modelled by the emission list
  `List (String × String)` together with the lookup `valuesGet`,
  which collects the values added under one key in emission order;
* byte slices (`[]byte`) are modelled as `String`;
* fallible Go functions returning `(T, error)` are modelled as
  `Except String T`.
-/

/-- Generic interchange value: the result of decoding JSON into Go's
`interface{}` (`nil`, `bool`, `float64`, `string`, `[]interface{}`,
`map[string]interface{}`).  Numbers keep their literal text, which is all
the encoder below ever uses of them. -/
inductive Json where
  | null : Json
  | bool (b : Bool) : Json
  | num (lit : String) : Json
  | str (s : String) : Json
  | arr (elems : List Json) : Json
  | obj (fields : List (String × Json)) : Json
deriving Repr, Inhabited

/-- Opening-brace character, kept out of string literals. -/
def lbrace : Char := Char.ofNat 123

/-- Closing-brace character, kept out of string literals. -/
def rbrace : Char := Char.ofNat 125

/-- Lower-case hexadecimal digit, as used by Go's `encoding/json` and
`strconv` when emitting `\u00XX` escapes. -/
def hexDig (n : Nat) : Char :=
  if n < 10 then Char.ofNat ('0'.toNat + n) else Char.ofNat ('a'.toNat + (n - 10))

/-- Escaping of one character of a JSON string by Go's
`encoding/json.Marshal` (HTML escaping enabled, its default): quote,
backslash and control characters are escaped; `<`, `>`, `&` and
U+2028/U+2029 are written as their six-character backslash-u escapes;
every other character is emitted as itself. -/
def escapeChar (c : Char) : List Char :=
  if c = '"' then ['\\', '"']
  else if c = '\\' then ['\\', '\\']
  else if c = '\n' then ['\\', 'n']
  else if c = '\r' then ['\\', 'r']
  else if c = '\t' then ['\\', 't']
  else if c.toNat < 0x20 then
    ['\\', 'u', '0', '0', hexDig (c.toNat / 16), hexDig (c.toNat % 16)]
  else if c = '<' then ['\\', 'u', '0', '0', '3', 'c']
  else if c = '>' then ['\\', 'u', '0', '0', '3', 'e']
  else if c = '&' then ['\\', 'u', '0', '0', '2', '6']
  else if c.toNat = 0x2028 then ['\\', 'u', '2', '0', '2', '8']
  else if c.toNat = 0x2029 then ['\\', 'u', '2', '0', '2', '9']
  else [c]

/-- Character data of `json.Marshal` applied to a Go string: the escaped
characters surrounded by double quotes. -/
def jsonQuoteData (cs : List Char) : List Char :=
  '"' :: cs.flatMap escapeChar ++ ['"']

/-- Result of `json.Marshal` applied to a Go string. -/
def jsonQuote (s : String) : String := ⟨jsonQuoteData s.data⟩

/-- Value of one hexadecimal digit character, upper or lower case
(Go `strconv.unhex`). -/
def hexVal (c : Char) : Option Nat :=
  if '0' ≤ c ∧ c ≤ '9' then some (c.toNat - '0'.toNat)
  else if 'a' ≤ c ∧ c ≤ 'f' then some (c.toNat - 'a'.toNat + 10)
  else if 'A' ≤ c ∧ c ≤ 'F' then some (c.toNat - 'A'.toNat + 10)
  else none

/-- Validity of a code point as a Go rune value accepted by
`utf8.ValidRune`: not a surrogate and at most U+10FFFF. -/
def goValidRune (n : Nat) : Bool :=
  decide (n < 0xD800 ∨ (0xDFFF < n ∧ n < 0x110000))

/-- Accumulating read of `k` hexadecimal digits (Go `strconv.unhex`
loop): fails unless `k` hex digit characters are present. -/
def readHex : Nat → Nat → List Char → Option (Nat × List Char)
  | 0, acc, cs => some (acc, cs)
  | k + 1, acc, cs =>
    match cs with
    | [] => none
    | c :: cs2 =>
      match hexVal c with
      | some v => readHex k (acc * 16 + v) cs2
      | none => none

/-- Octal digit test for Go escape sequences. -/
def isOctal (c : Char) : Bool := '0' ≤ c ∧ c ≤ '7'

/-- Handling of one escape sequence after the backslash, per Go
`strconv.unquoteChar` with quote `"`: the single-character escapes, then
`\xHH`, `\uXXXX` and `\UXXXXXXXX` (the latter two must denote valid
runes), then three-digit octal below 256; anything else — including
`\'` inside a double-quoted string — is a syntax error.  Returns the
decoded character and the remaining input; byte-level escapes (`\xHH`,
octal) are modelled at code-point level, which agrees with Go on the
ASCII range, and they never occur in the output of `jsonQuote` that this
model is applied to. -/
def unquoteEscape (e : Char) (t : List Char) : Option (Char × List Char) :=
  if e = 'a' then some (Char.ofNat 0x07, t)
  else if e = 'b' then some (Char.ofNat 0x08, t)
  else if e = 'f' then some (Char.ofNat 0x0C, t)
  else if e = 'n' then some ('\n', t)
  else if e = 'r' then some ('\r', t)
  else if e = 't' then some ('\t', t)
  else if e = 'v' then some (Char.ofNat 0x0B, t)
  else if e = '\\' then some ('\\', t)
  else if e = '"' then some ('"', t)
  else if e = 'x' then
    match readHex 2 0 t with
    | some (n, t2) => some (Char.ofNat n, t2)
    | none => none
  else if e = 'u' then
    match readHex 4 0 t with
    | some (n, t2) => if goValidRune n then some (Char.ofNat n, t2) else none
    | none => none
  else if e = 'U' then
    match readHex 8 0 t with
    | some (n, t2) => if goValidRune n then some (Char.ofNat n, t2) else none
    | none => none
  else if isOctal e then
    match t with
    | o2 :: o3 :: t3 =>
      if isOctal o2 ∧ isOctal o3 then
        let n := (e.toNat - '0'.toNat) * 64 + (o2.toNat - '0'.toNat) * 8
          + (o3.toNat - '0'.toNat)
        if n < 256 then some (Char.ofNat n, t3) else none
      else none
    | _ => none
  else none

/-- Interior of Go's `strconv.Unquote` on a double-quoted string: the
per-character loop of `unquoteChar`.  An unescaped quote or a raw
newline is a syntax error; a backslash dispatches to `unquoteEscape`.
Recursion is by fuel; every step consumes at least one input character,
so any fuel above the input length is enough (as Go's loop, which always
consumes input, terminates). -/
def unquoteBody : Nat → List Char → Option (List Char)
  | 0, _ => none
  | _ + 1, [] => some []
  | fuel + 1, c :: rest =>
    if c = '"' then none
    else if c = '\n' then none
    else if c = '\\' then
      match rest with
      | [] => none
      | e :: t =>
        match unquoteEscape e t with
        | some (ch, t2) => (unquoteBody fuel t2).map (ch :: ·)
        | none => none
    else (unquoteBody fuel rest).map (c :: ·)

/-- Go `strconv.Unquote`, restricted to double-quoted strings (the only
form the encoder below ever passes to it): the input must begin and end
with `"` and its interior must unquote cleanly. -/
def goUnquote (s : String) : Option String :=
  match s.data with
  | [] => none
  | c :: rest =>
    if c = '"' then
      if rest.getLast? = some '"' then
        (unquoteBody (rest.dropLast.length + 1) rest.dropLast).map (⟨·⟩)
      else none
    else none

/-- Result of Go's `json.Marshal` on a generic interchange value: `null`,
`true`/`false`, the number's literal text, a quoted string, or the
bracketed comma-separated forms for arrays and objects. -/
def jsonMarshal : Json → String
  | .null => "null"
  | .bool true => "true"
  | .bool false => "false"
  | .num lit => lit
  | .str s => jsonQuote s
  | .arr elems => "[" ++ String.intercalate "," (elems.attach.map fun e => jsonMarshal e.1) ++ "]"
  | .obj fields => lbrace.toString
      ++ String.intercalate "," (fields.attach.map fun f => jsonQuote f.1.1 ++ ":" ++ jsonMarshal f.1.2)
      ++ rbrace.toString
termination_by v => v
decreasing_by
  · have h1 := List.sizeOf_lt_of_mem e.2
    simp only [Json.arr.sizeOf_spec]
    omega
  · have h1 := List.sizeOf_lt_of_mem f.2
    have h2 : sizeOf f.1.2 < sizeOf f.1 := by
      obtain ⟨a, b⟩ := f.1
      simp only [Prod.mk.sizeOf_spec]
      omega
    simp only [Json.obj.sizeOf_spec]
    omega

/-- Go `strings.HasPrefix(res, "\"")`: the first character is a double
quote. -/
def hasQuotePrefix (s : String) : Bool := s.data.head? = some '"'

/-- Embedding of `encodeParamValue` (src/api/api.go lines 103–115):
marshal the value; if the marshalled text starts with a double quote
(`strings.HasPrefix(res, "\"")`), strip the quotes with
`strconv.Unquote` (whose error Go ignores — on failure `res` becomes the
empty string).  The error return corresponds to a `json.Marshal`
failure, which the total model `jsonMarshal` never produces. -/
def encodeParamValue (value : Json) : Except String String :=
  let res := jsonMarshal value
  if hasQuotePrefix res then
    match goUnquote res with
    | some s => .ok s
    | none => .ok ""
  else .ok res

/-- Total value of `encodeParamValue` (which, over the interchange value
model, never takes its error branch). -/
def encodeValue (value : Json) : String :=
  match encodeParamValue value with
  | .ok s => s
  | .error _ => ""

/-- Key of the i-th element of an array-valued field:
`fmt.Sprintf` of the field name, a bracket, the index and a closing
bracket (src/api/api.go line 85). -/
def arrParamName (name : String) (i : Nat) : String :=
  name ++ "[" ++ toString i ++ "]"

/-- Inner loop of `StructToParams` over the elements of a slice-valued
field (src/api/api.go lines 78–87), generic in the element encoder so
that its error propagation can be stated for a failing encoder as well:
each element is encoded and added under `name[i]`; the first error aborts
the whole call. -/
def encodeArrayItems (enc : Json → Except String String)
    (name : String) : Nat → List Json → Except String (List (String × String))
  | _, [] => .ok []
  | i, item :: rest => do
    let val ← enc item
    let tail ← encodeArrayItems enc name (i + 1) rest
    .ok ((arrParamName name i, val) :: tail)

/-- Parameters contributed by one field of the generic mapping
(src/api/api.go lines 73–98): a slice or array value yields one indexed
parameter per element; every other value is encoded as a scalar under
the field's own name. -/
def fieldToParams (enc : Json → Except String String)
    (name : String) (value : Json) : Except String (List (String × String)) :=
  match value with
  | .arr items => encodeArrayItems enc name 0 items
  | v => do
    let val ← enc v
    .ok [(name, val)]

/-- Loop of `StructToParams` over the entries of the generic mapping
(src/api/api.go lines 73–98), in the given enumeration order; any error
aborts the call with no parameters. -/
def structToParamsLoop (enc : Json → Except String String) :
    List (String × Json) → Except String (List (String × String))
  | [] => .ok []
  | (name, value) :: fields => do
    let ps ← fieldToParams enc name value
    let rest ← structToParamsLoop enc fields
    .ok (ps ++ rest)

/-- Embedding of `StructToParams` (src/api/api.go lines 64–101).  The
argument is the outcome of the marshal/unmarshal round trip of the input
struct into the generic mapping (an unmarshal failure is returned as-is
with a nil parameter set, lines 67–70); on success the mapping's entries
are encoded by the loop with `encodeParamValue`. -/
def StructToParams (unmarshalled : Except String (List (String × Json))) :
    Except String (List (String × String)) :=
  match unmarshalled with
  | .error e => .error e
  | .ok fields => structToParamsLoop encodeParamValue fields

/-- Values stored under one key of the resulting `url.Values`:
`Add` appends, so the slice for `key` collects the added values in
emission order. -/
def valuesGet (ps : List (String × String)) (key : String) : List String :=
  ps.filterMap fun p => if p.1 = key then some p.2 else none

/-- Parameters contributed by one field, as a total function (the
encoder `encodeParamValue` never fails on interchange values). -/
def fieldParamsTotal (f : String × Json) : List (String × String) :=
  match f.2 with
  | .arr items => (items.enum).map fun ie => (arrParamName f.1 ie.1, encodeValue ie.2)
  | _ => [(f.1, encodeValue f.2)]

/-- Full parameter emission of `StructToParams` on a successfully
unmarshalled mapping: the concatenation of the per-field contributions in
enumeration order. -/
def paramsOf (fields : List (String × Json)) : List (String × String) :=
  fields.flatMap fieldParamsTotal

/-- Field of a Go request struct as seen by `encoding/json`: its
effective JSON name, whether its tag carries `omitempty`, and the JSON
encoding of its value. -/
structure GoField where
  name : String
  omitempty : Bool
  value : Json
deriving Repr, Inhabited

/-- Emptiness test of `encoding/json.isEmptyValue`, transported to the
JSON encoding of the field's value: nil pointers/interfaces/slices/maps
(which encode as `null`), `false`, numeric zero (which encodes as the
literal `0`), the empty string, and empty arrays and objects. -/
def jsonIsEmptyValue : Json → Bool
  | .null => true
  | .bool b => !b
  | .num lit => lit = "0"
  | .str s => s = ""
  | .arr items => items.isEmpty
  | .obj fields => fields.isEmpty

/-- Number of elements of an array value (zero for non-arrays); bounds
the indices of the keys an array-valued field can emit. -/
def jsonArrayLen : Json → Nat
  | .arr items => items.length
  | _ => 0

/-- Generic mapping produced by marshalling a request struct and
unmarshalling it back (src/api/api.go lines 65–67): fields whose tag
carries `omitempty` and whose value is empty are omitted by
`json.Marshal`, so they are absent from the mapping. -/
def marshalStruct (fields : List GoField) : List (String × Json) :=
  (fields.filter fun f => !(f.omitempty && jsonIsEmptyValue f.value)).map
    fun f => (f.name, f.value)

/-- Go `strings.Trim(s, "/")`: removes leading and trailing `/`
characters. -/
def trimSlash (s : String) : String :=
  ⟨((s.data.dropWhile (· = '/')).reverse.dropWhile (· = '/')).reverse⟩

/-- Loop of `BuildPath` (src/api/api.go lines 121–134) over the already
rendered parts (a `string` part renders as itself, a `fmt.Stringer` as
its `String()`, anything else via `fmt.Sprintf`): a part that is
non-empty BEFORE trimming is trimmed of `/` on both sides and appended
to the accumulated segment list — even when trimming leaves it empty. -/
def buildPathLoop (acc : List String) : List String → List String
  | [] => acc
  | part :: rest =>
    if part.length > 0 then buildPathLoop (acc ++ [trimSlash part]) rest
    else buildPathLoop acc rest

/-- Embedding of `BuildPath` (src/api/api.go lines 118–137): run the
loop over the rendered parts and join the collected segments with a
single `/`. -/
def BuildPath (parts : List String) : String :=
  String.intercalate "/" (buildPathLoop [] parts)

/-- Scheme-letter test of `net/url.getScheme`: ASCII letters. -/
def isSchemeAlpha (c : Char) : Bool :=
  ('a' ≤ c ∧ c ≤ 'z') ∨ ('A' ≤ c ∧ c ≤ 'Z')

/-- Subsequent scheme characters of `net/url.getScheme`: digits and
`+`, `-`, `.` (not allowed in first position). -/
def isSchemeOther (c : Char) : Bool :=
  ('0' ≤ c ∧ c ≤ '9') ∨ c = '+' ∨ c = '-' ∨ c = '.'

/-- Loop of Go's `net/url.getScheme`: scan for a `:` preceded by a valid
scheme token.  A digit/`+`/`-`/`.` in first position, or any other
character anywhere, means the string has no scheme and is returned whole;
a `:` in first position is the `missing protocol scheme` error. -/
def getSchemeLoop (raw : String) (seen : List Char) :
    List Char → Except String (String × String)
  | [] => .ok ("", raw)
  | c :: cs =>
    if isSchemeAlpha c then getSchemeLoop raw (seen ++ [c]) cs
    else if isSchemeOther c then
      if seen.isEmpty then .ok ("", raw) else getSchemeLoop raw (seen ++ [c]) cs
    else if c = ':' then
      if seen.isEmpty then .error "missing protocol scheme"
      else .ok (⟨seen⟩, ⟨cs⟩)
    else .ok ("", raw)

/-- Go `net/url.getScheme`: split a raw URL into its scheme and the
remainder. -/
def getScheme (raw : String) : Except String (String × String) :=
  getSchemeLoop raw [] raw.data

/-- Go `net/url.stringContainsCTLByte`: a byte below 0x20 or equal to
0x7F. -/
def stringContainsCTLByte (s : String) : Bool :=
  s.data.any fun c => c.toNat < 0x20 ∨ c.toNat = 0x7F

/-- ASCII lower-casing: models Go lower-casing on the pure-ASCII inputs
it is applied to here (URL schemes, whose characters `getScheme`
restricts to ASCII, and the two `ApiError` field names), where Go full
case folding and ASCII folding agree. -/
def asciiToLower (c : Char) : Char :=
  if 'A' ≤ c ∧ c ≤ 'Z' then Char.ofNat (c.toNat + 32) else c

/-- Parsed URL: the components of Go `net/url.URL` that this model
tracks.  `opaquePart` is the `Opaque` component (a rootless path under a
scheme); the `User` component is validated during parsing but not
carried, since nothing here reads it. -/
structure URLStruct where
  scheme : String
  opaquePart : String
  host : String
  path : String
  forceQuery : Bool
  rawQuery : String
  fragment : String
  omitHost : Bool
deriving Repr, DecidableEq, Inhabited

/-- Encoding modes of `net/url`'s escape machinery. -/
inductive UrlEncoding where
  | encodePath
  | encodePathSegment
  | encodeHost
  | encodeZone
  | encodeUserPassword
  | encodeQueryComponent
  | encodeFragment
deriving Repr, DecidableEq

/-- Go `net/url.shouldEscape`: alphanumerics never escape; host and
zone components additionally allow the sub-delims plus
`: [ ] < > "` and the single quote; the unreserved marks `- _ . ~`
never escape; the reserved characters escape or not per component; a
fragment also keeps `! ( ) *`; everything else escapes. -/
def shouldEscape (c : Char) (mode : UrlEncoding) : Bool :=
  if ('a' ≤ c ∧ c ≤ 'z') ∨ ('A' ≤ c ∧ c ≤ 'Z') ∨ ('0' ≤ c ∧ c ≤ '9') then false
  else if (mode = .encodeHost ∨ mode = .encodeZone) ∧
      (c = '!' ∨ c = '$' ∨ c = '&' ∨ c.toNat = 39 ∨ c = '(' ∨ c = ')' ∨ c = '*' ∨
       c = '+' ∨ c = ',' ∨ c = ';' ∨ c = '=' ∨ c = ':' ∨ c = '[' ∨ c = ']' ∨
       c = '<' ∨ c = '>' ∨ c = '"') then false
  else if c = '-' ∨ c = '_' ∨ c = '.' ∨ c = '~' then false
  else if c = '$' ∨ c = '&' ∨ c = '+' ∨ c = ',' ∨ c = '/' ∨ c = ':' ∨ c = ';' ∨
      c = '=' ∨ c = '?' ∨ c = '@' then
    match mode with
    | .encodePath => c = '?'
    | .encodePathSegment => c = '/' ∨ c = ';' ∨ c = ',' ∨ c = '?'
    | .encodeUserPassword => c = '@' ∨ c = '/' ∨ c = '?' ∨ c = ':'
    | .encodeQueryComponent => true
    | .encodeFragment => false
    | .encodeHost => true
    | .encodeZone => true
  else if mode = .encodeFragment ∧ (c = '!' ∨ c = '(' ∨ c = ')' ∨ c = '*') then false
  else true

/-- Go `net/url.ishex`. -/
def ishex (c : Char) : Bool := (hexVal c).isSome

/-- Go `net/url.unhex` (0 on a non-hex digit, as in Go). -/
def unhex (c : Char) : Nat := (hexVal c).getD 0

/-- Validation-and-decode loop of Go `net/url.unescape`: a `%` must be
followed by two hex digits; in the host a `%`-escape may only denote a
non-ASCII byte (except `%25`), in a zone only a byte that would be
legal written directly (or `%25` or an escaped space); a raw ASCII
character that `shouldEscape` in host/zone mode is an invalid host
character.  Go also special-cases a raw `+` (meaningful only in query
components, which Parse never unescapes); it is absorbed here because
`shouldEscape` already allows `+` in host and zone.  Decoded escapes
are modelled at code-point level; no theorem below reads the decoded
text of a component. -/
def unescapeUrl : List Char → UrlEncoding → Except String (List Char)
  | [], _ => .ok []
  | '%' :: h1 :: h2 :: t, mode =>
    if ishex h1 ∧ ishex h2 then
      if mode = .encodeHost ∧ unhex h1 < 8 ∧ ¬(h1 = '2' ∧ h2 = '5') then
        .error "invalid URL escape"
      else if mode = .encodeZone ∧ ¬(h1 = '2' ∧ h2 = '5') ∧
          ¬(unhex h1 * 16 + unhex h2 = 32) ∧
          shouldEscape (Char.ofNat (unhex h1 * 16 + unhex h2)) .encodeHost then
        .error "invalid URL escape"
      else
        match unescapeUrl t mode with
        | .ok out => .ok (Char.ofNat (unhex h1 * 16 + unhex h2) :: out)
        | .error e => .error e
    else .error "invalid URL escape"
  | '%' :: _, _ => .error "invalid URL escape"
  | c :: rest, mode =>
    if (mode = .encodeHost ∨ mode = .encodeZone) ∧ c.toNat < 0x80 ∧
        shouldEscape c mode then
      .error "invalid character in host name"
    else
      match unescapeUrl rest mode with
      | .ok out => .ok (c :: out)
      | .error e => .error e

/-- Go `net/url.split(s, sep, true)`: the part before the first `sep`
and the part after it (separator removed); the whole string and the
empty string when `sep` does not occur. -/
def splitAtChar (s : String) (sep : Char) : String × String :=
  match s.data.dropWhile (fun c => ¬ c = sep) with
  | [] => (s, "")
  | _ :: t => (⟨s.data.takeWhile fun c => ¬ c = sep⟩, ⟨t⟩)

/-- Split at the LAST occurrence of `sep` (Go `strings.LastIndex`):
the parts before and after it, or `none` when `sep` does not occur. -/
def splitAtLast (cs : List Char) (sep : Char) : Option (List Char × List Char) :=
  let afterRev := cs.reverse.takeWhile fun c => ¬ c = sep
  if afterRev.length = cs.length then none
  else some (cs.take (cs.length - afterRev.length - 1), afterRev.reverse)

/-- Split at the FIRST occurrence of `sep` (Go `strings.Cut`): `none`
when `sep` does not occur. -/
def cutAtFirst : List Char → Char → Option (List Char × List Char)
  | [], _ => none
  | c :: t, sep =>
    if c = sep then some ([], t)
    else (cutAtFirst t sep).map fun p => (c :: p.1, p.2)

/-- Index of the first occurrence of `pat` as a contiguous run
(Go `strings.Index`). -/
def indexOfSeq (pat : List Char) : List Char → Option Nat
  | [] => if pat.isPrefixOf [] then some 0 else none
  | c :: t =>
    if pat.isPrefixOf (c :: t) then some 0
    else (indexOfSeq pat t).map (· + 1)

/-- Go `net/url.validOptionalPort`: empty, or a colon followed by
decimal digits only. -/
def validOptionalPort (port : List Char) : Bool :=
  match port with
  | [] => true
  | c :: digits => c = ':' ∧ digits.all fun b => '0' ≤ b ∧ b ≤ '9'

/-- Go `net/url.parseHost`: a bracketed IP literal must close its
bracket, carry a valid optional port after it, and (when a `%25` zone
marker is present) unescape its pieces in host/zone/host modes;
otherwise everything from the last colon on must be a valid optional
port; finally the host text must unescape in host mode, which rejects
invalid host characters and ASCII `%`-escapes. -/
def parseHost (host : List Char) : Except String (List Char) :=
  if host.head? = some '[' then
    match splitAtLast host ']' with
    | none => .error "missing right bracket in host"
    | some (beforeRB, colonPort) =>
      if ¬ validOptionalPort colonPort then .error "invalid port after host"
      else
        match indexOfSeq ['%', '2', '5'] beforeRB with
        | some z => do
          let h1 ← unescapeUrl (beforeRB.take z) .encodeHost
          let h2 ← unescapeUrl (beforeRB.drop z) .encodeZone
          let h3 ← unescapeUrl (']' :: colonPort) .encodeHost
          .ok (h1 ++ h2 ++ h3)
        | none => unescapeUrl host .encodeHost
  else
    match splitAtLast host ':' with
    | some (_, afterColon) =>
      if ¬ validOptionalPort (':' :: afterColon) then .error "invalid port after host"
      else unescapeUrl host .encodeHost
    | none => unescapeUrl host .encodeHost

/-- Go `net/url.validUserinfo`: ASCII alphanumerics and the RFC 3986
userinfo characters (including `%` and `@`; 39 is the single quote);
anything else, including non-ASCII, is invalid. -/
def validUserinfo (cs : List Char) : Bool :=
  cs.all fun r =>
    (('A' ≤ r ∧ r ≤ 'Z') ∨ ('a' ≤ r ∧ r ≤ 'z') ∨ ('0' ≤ r ∧ r ≤ '9')) ∨
    r = '-' ∨ r = '.' ∨ r = '_' ∨ r = ':' ∨ r = '~' ∨ r = '!' ∨ r = '$' ∨
    r = '&' ∨ r.toNat = 39 ∨ r = '(' ∨ r = ')' ∨ r = '*' ∨ r = '+' ∨
    r = ',' ∨ r = ';' ∨ r = '=' ∨ r = '%' ∨ r = '@'

/-- Go `net/url.parseAuthority`: the host after the last `@` is parsed
first; then the userinfo before it must pass `validUserinfo`, and its
user (and, after a colon, password) parts must unescape in
user-password mode.  The decoded user is not carried — nothing in this
layer reads it — but every error path is. -/
def parseAuthority (authority : List Char) : Except String (List Char) :=
  match splitAtLast authority '@' with
  | none => parseHost authority
  | some (userinfo, hostPart) => do
    let host ← parseHost hostPart
    if ¬ validUserinfo userinfo then .error "net/url: invalid userinfo"
    else
      match cutAtFirst userinfo ':' with
      | none => do
        let _ ← unescapeUrl userinfo .encodeUserPassword
        .ok host
      | some (username, password) => do
        let _ ← unescapeUrl username .encodeUserPassword
        let _ ← unescapeUrl password .encodeUserPassword
        .ok host

/-- Query split of `net/url.parse`: a rest ending in the only `?` sets
ForceQuery and drops it; otherwise the rest is cut at the first `?` and
the raw query is stored unvalidated. -/
def urlSplitQuery (rest0 : String) : String × Bool × String :=
  if rest0.data.getLast? = some '?' ∧ ¬ rest0.data.dropLast.contains '?' then
    (⟨rest0.data.dropLast⟩, true, "")
  else
    let rq := splitAtChar rest0 '?'
    (rq.1, false, rq.2)

/-- Authority-and-path tail of `net/url.parse` (viaRequest = false, as
in `url.Parse`): under `//` (but not a scheme-less `///`) the authority
up to the next `/` goes through `parseAuthority` and the remainder
becomes the path; otherwise a rooted path under a scheme records an
omitted host; either way the path must unescape in path mode. -/
def urlParseAuthorityAndPath (scheme rest1 : String) (forceQuery : Bool)
    (rawQuery : String) : Except String URLStruct :=
  if (¬ scheme = "" ∨ ¬ ['/', '/', '/'].isPrefixOf rest1.data) ∧
      ['/', '/'].isPrefixOf rest1.data then
    let afterSlashes := rest1.data.drop 2
    let authority := afterSlashes.takeWhile fun c => ¬ c = '/'
    let rest2 := afterSlashes.dropWhile fun c => ¬ c = '/'
    match parseAuthority authority with
    | .error e => .error e
    | .ok host =>
      match unescapeUrl rest2 .encodePath with
      | .error e => .error e
      | .ok path =>
        .ok { scheme := scheme, opaquePart := "", host := ⟨host⟩, path := ⟨path⟩,
              forceQuery := forceQuery, rawQuery := rawQuery, fragment := "",
              omitHost := false }
  else
    match unescapeUrl rest1.data .encodePath with
    | .error e => .error e
    | .ok path =>
      .ok { scheme := scheme, opaquePart := "", host := "", path := ⟨path⟩,
            forceQuery := forceQuery, rawQuery := rawQuery, fragment := "",
            omitHost := ¬ scheme = "" ∧ ['/'].isPrefixOf rest1.data }

/-- Post-scheme pipeline of `net/url.parse`: query split, then the
opaque early return for a rootless rest under a scheme (its text is NOT
validated, as in Go), the colon check on the first segment of a
scheme-less relative reference, and the authority/path tail. -/
def urlParseWithScheme (scheme rest0 : String) : Except String URLStruct :=
  let rest1 := (urlSplitQuery rest0).1
  let forceQuery := (urlSplitQuery rest0).2.1
  let rawQuery := (urlSplitQuery rest0).2.2
  if ¬ ['/'].isPrefixOf rest1.data then
    if ¬ scheme = "" then
      .ok { scheme := scheme, opaquePart := rest1, host := "", path := "",
            forceQuery := forceQuery, rawQuery := rawQuery, fragment := "",
            omitHost := false }
    else if (rest1.data.takeWhile fun c => ¬ c = '/').contains ':' then
      .error "first path segment in URL cannot contain colon"
    else urlParseAuthorityAndPath scheme rest1 forceQuery rawQuery
  else urlParseAuthorityAndPath scheme rest1 forceQuery rawQuery

/-- Go `net/url.parse(rawURL, false)`, the call `Parse` makes on the
pre-fragment part: control-character check, the `*` special case,
scheme extraction (lower-cased), then the post-scheme pipeline. -/
def urlParseNoFrag (rawURL : String) : Except String URLStruct :=
  if stringContainsCTLByte rawURL then
    .error "net/url: invalid control character in URL"
  else if rawURL = "*" then
    .ok { scheme := "", opaquePart := "", host := "", path := "*",
          forceQuery := false, rawQuery := "", fragment := "", omitHost := false }
  else
    match getScheme rawURL with
    | .error e => .error e
    | .ok (sch, rest0) => urlParseWithScheme ⟨sch.data.map asciiToLower⟩ rest0

/-- Model of Go `net/url.Parse`: split off the fragment, parse the
rest, then unescape and attach the fragment.  All of Parse's error
paths are modelled: control characters, a leading colon (missing
scheme), the colon-in-first-segment rule for scheme-less references,
userinfo validation and unescaping, host character / percent-escape
validation, port validation, and path and fragment unescaping; the raw
query and an opaque rootless rest are stored unvalidated, as in Go. -/
def urlParse (rawURL : String) : Except String URLStruct :=
  let preFrag := (splitAtChar rawURL '#').1
  let frag := (splitAtChar rawURL '#').2
  match urlParseNoFrag preFrag with
  | .error e => .error e
  | .ok base =>
    if frag = "" then .ok base
    else
      match unescapeUrl frag.data .encodeFragment with
      | .error e => .error e
      | .ok fragDec => .ok { base with fragment := ⟨fragDec⟩ }

/-- Embedding of `IsValidURL` (src/api/api.go lines 164–171): parse the
candidate and require a non-empty scheme; a parse error or an empty
scheme yields `false`. -/
def IsValidURL (urlCandidate : String) : Bool :=
  match urlParse urlCandidate with
  | .error _ => false
  | .ok urlStruct => !(urlStruct.scheme = "")

/-- Embedding of `ResponseMetaData` (src/api/api.go lines 22–26):
headers, status code and raw body (a byte slice, modelled as a string;
the Go zero value `nil` is the empty string). -/
structure ResponseMetaData where
  header : List (String × List String)
  statusCode : Int
  body : String
deriving Repr, DecidableEq, Inhabited

/-- Raw HTTP response as `SetResponseMeta` consumes it: header, status
code, and the outcome of `io.ReadAll` on its body (which may fail). -/
structure HttpResponseModel where
  header : List (String × List String)
  statusCode : Int
  bodyRead : Except String String
deriving Repr, Inhabited

/-- Embedding of `SetResponseMeta` (src/api/api.go lines 179–193).  The
result is the sequence of `SetMeta` invocations performed on the target:
a `nil` response (`none`) performs none; otherwise header and status
code are copied verbatim, the body is the bytes read when `io.ReadAll`
succeeds and stays empty when it fails, and `SetMeta` is invoked exactly
once with the assembled metadata. -/
def SetResponseMeta (httpResp : Option HttpResponseModel) : List ResponseMetaData :=
  match httpResp with
  | none => []
  | some resp =>
    let body := match resp.bodyRead with | .ok b => b | .error _ => ""
    [{ header := resp.header, statusCode := resp.statusCode, body := body }]

/-- JSON whitespace accepted by Go's scanner. -/
def isJsonWs (c : Char) : Bool :=
  c = ' ' ∨ c = '\t' ∨ c = '\n' ∨ c = '\r'

/-- Drop leading JSON whitespace. -/
def skipJsonWs (cs : List Char) : List Char := cs.dropWhile isJsonWs

/-- Body of a JSON string after its opening quote, per Go's
`encoding/json` scanner and decoder: the allowed escapes are
`\" \\ \/ \b \f \n \r \t \uXXXX`; raw control characters are rejected;
a `\uXXXX` high surrogate combines with an immediately following low
surrogate, and a lone surrogate decodes to U+FFFD.  Returns the decoded
content and the input after the closing quote.  Recursion is by fuel;
every step consumes input, so any fuel above the input length is
enough. -/
def parseJsonStringBody : Nat → List Char → Option (List Char × List Char)
  | 0, _ => none
  | _, [] => none
  | fuel + 1, c :: rest =>
    if c = '"' then some ([], rest)
    else if c = '\\' then
      match rest with
      | [] => none
      | e :: t =>
        if e = '"' then (parseJsonStringBody fuel t).map fun p => ('"' :: p.1, p.2)
        else if e = '\\' then (parseJsonStringBody fuel t).map fun p => ('\\' :: p.1, p.2)
        else if e = '/' then (parseJsonStringBody fuel t).map fun p => ('/' :: p.1, p.2)
        else if e = 'b' then (parseJsonStringBody fuel t).map fun p => (Char.ofNat 0x08 :: p.1, p.2)
        else if e = 'f' then (parseJsonStringBody fuel t).map fun p => (Char.ofNat 0x0C :: p.1, p.2)
        else if e = 'n' then (parseJsonStringBody fuel t).map fun p => ('\n' :: p.1, p.2)
        else if e = 'r' then (parseJsonStringBody fuel t).map fun p => ('\r' :: p.1, p.2)
        else if e = 't' then (parseJsonStringBody fuel t).map fun p => ('\t' :: p.1, p.2)
        else if e = 'u' then
          match t with
          | h1 :: h2 :: h3 :: h4 :: t4 =>
            match hexVal h1, hexVal h2, hexVal h3, hexVal h4 with
            | some v1, some v2, some v3, some v4 =>
              let n := ((v1 * 16 + v2) * 16 + v3) * 16 + v4
              if 0xD800 ≤ n ∧ n < 0xDC00 then
                match t4 with
                | b1 :: b2 :: g1 :: g2 :: g3 :: g4 :: t6 =>
                  match hexVal g1, hexVal g2, hexVal g3, hexVal g4 with
                  | some w1, some w2, some w3, some w4 =>
                    let m := ((w1 * 16 + w2) * 16 + w3) * 16 + w4
                    if b1 = '\\' ∧ b2 = 'u' ∧ 0xDC00 ≤ m ∧ m ≤ 0xDFFF then
                      (parseJsonStringBody fuel t6).map fun p =>
                        (Char.ofNat (0x10000 + (n - 0xD800) * 0x400 + (m - 0xDC00)) :: p.1, p.2)
                    else (parseJsonStringBody fuel t4).map fun p => (Char.ofNat 0xFFFD :: p.1, p.2)
                  | _, _, _, _ =>
                    (parseJsonStringBody fuel t4).map fun p => (Char.ofNat 0xFFFD :: p.1, p.2)
                | _ => (parseJsonStringBody fuel t4).map fun p => (Char.ofNat 0xFFFD :: p.1, p.2)
              else if 0xDC00 ≤ n ∧ n ≤ 0xDFFF then
                (parseJsonStringBody fuel t4).map fun p => (Char.ofNat 0xFFFD :: p.1, p.2)
              else (parseJsonStringBody fuel t4).map fun p => (Char.ofNat n :: p.1, p.2)
            | _, _, _, _ => none
          | _ => none
        else none
    else if c.toNat < 0x20 then none
    else (parseJsonStringBody fuel rest).map fun p => (c :: p.1, p.2)

/-- Digit run of a JSON number. -/
def takeDigits (cs : List Char) : List Char × List Char :=
  (cs.takeWhile Char.isDigit, cs.dropWhile Char.isDigit)

/-- JSON number per Go's scanner: optional minus, an integer part with
no leading zero, optional fraction and exponent.  Returns the literal
and the rest of the input. -/
def parseJsonNumber (cs : List Char) : Option (List Char × List Char) :=
  let (neg, cs1) := match cs with
    | '-' :: t => (['-'], t)
    | _ => ([], cs)
  match cs1 with
  | [] => none
  | d :: t =>
    if d = '0' then someIntRest neg ['0'] t
    else if d.isDigit then
      let (ds, t2) := takeDigits t
      someIntRest neg (d :: ds) t2
    else none
where
  /-- Fraction and exponent after the integer part. -/
  someIntRest (neg intPart : List Char) (rest : List Char) : Option (List Char × List Char) :=
    let (fracPart, rest1) : List Char × List Char := match rest with
      | '.' :: t => match takeDigits t with
        | ([], _) => (['!'], rest)
        | (ds, t2) => ('.' :: ds, t2)
      | _ => ([], rest)
    if fracPart = ['!'] then none
    else
      let (expPart, rest2) : List Char × List Char := match rest1 with
        | e :: t =>
          if e = 'e' ∨ e = 'E' then
            let (sgn, t1) : List Char × List Char := match t with
              | s :: t2 => if s = '+' ∨ s = '-' then ([s], t2) else ([], t)
              | [] => ([], t)
            match takeDigits t1 with
            | ([], _) => (['!'], rest1)
            | (ds, t2) => (e :: sgn ++ ds, t2)
          else ([], rest1)
        | [] => ([], rest1)
      if expPart = ['!'] then none
      else some (neg ++ intPart ++ fracPart ++ expPart, rest2)

mutual

/-- JSON value per Go's `encoding/json` grammar, by fuel recursion:
whitespace, then a literal, string, number, array or object. -/
def parseJsonValue : Nat → List Char → Option (Json × List Char)
  | 0, _ => none
  | fuel + 1, cs =>
    match skipJsonWs cs with
    | [] => none
    | c :: rest =>
      if c = 'n' then
        match rest with
        | 'u' :: 'l' :: 'l' :: t => some (.null, t)
        | _ => none
      else if c = 't' then
        match rest with
        | 'r' :: 'u' :: 'e' :: t => some (.bool true, t)
        | _ => none
      else if c = 'f' then
        match rest with
        | 'a' :: 'l' :: 's' :: 'e' :: t => some (.bool false, t)
        | _ => none
      else if c = '"' then
        (parseJsonStringBody (rest.length + 1) rest).map fun p => (.str ⟨p.1⟩, p.2)
      else if c = '-' ∨ c.isDigit then
        (parseJsonNumber (c :: rest)).map fun p => (.num ⟨p.1⟩, p.2)
      else if c = '[' then
        match skipJsonWs rest with
        | ']' :: t => some (.arr [], t)
        | cs2 => (parseJsonElems fuel cs2).map fun p => (.arr p.1, p.2)
      else if c = lbrace then
        match skipJsonWs rest with
        | r :: t =>
          if r = rbrace then some (.obj [], t)
          else (parseJsonFields fuel (r :: t)).map fun p => (.obj p.1, p.2)
        | [] => none
      else none

/-- Comma-separated JSON array elements up to the closing bracket. -/
def parseJsonElems : Nat → List Char → Option (List Json × List Char)
  | 0, _ => none
  | fuel + 1, cs => do
    let (v, rest) ← parseJsonValue fuel cs
    match skipJsonWs rest with
    | ',' :: t => do
      let (vs, r) ← parseJsonElems fuel t
      some (v :: vs, r)
    | ']' :: t => some ([v], t)
    | _ => none

/-- Comma-separated JSON object members up to the closing brace. -/
def parseJsonFields : Nat → List Char → Option (List (String × Json) × List Char)
  | 0, _ => none
  | fuel + 1, cs =>
    match skipJsonWs cs with
    | '"' :: rest => do
      let (k, r1) ← parseJsonStringBody (rest.length + 1) rest
      match skipJsonWs r1 with
      | ':' :: r2 => do
        let (v, r3) ← parseJsonValue fuel r2
        match skipJsonWs r3 with
        | ',' :: r4 => do
          let (fs, r5) ← parseJsonFields fuel r4
          some ((⟨k⟩, v) :: fs, r5)
        | r :: r5 => if r = rbrace then some ([(⟨k⟩, v)], r5) else none
        | [] => none
      | _ => none
    | _ => none

end

/-- Top-level JSON document per `json.Unmarshal`: one value, with
nothing but whitespace after it.  The fuel bound exceeds any possible
nesting depth of the input. -/
def parseJsonTop (s : String) : Option Json :=
  match parseJsonValue (s.length + 1) s.data with
  | some (v, rest) => if skipJsonWs rest = [] then some v else none
  | none => none

/-- Embedding of `ApiError` (src/api/api.go lines 195–198): the
structured failure payload of the service. -/
structure ApiError where
  message : String
  reason : String
deriving Repr, DecidableEq, Inhabited

/-- Method `Error()` of `ApiError` (src/api/api.go lines 200–202): the
error text is the message. -/
def ApiError.Error (err : ApiError) : String := err.message

/-- Case-insensitive equality of an object key and a struct field
name. -/
def goEqualFold (a b : String) : Bool :=
  a.data.map asciiToLower = b.data.map asciiToLower

/-- Action of one JSON object member on the partially decoded
`ApiError`: a key matching `Message` or `Reason` (case-insensitively;
the fields carry no JSON tags) must hold a string and sets that field,
any other key is ignored. -/
def setApiErrorField (acc : ApiError) (kv : String × Json) : Except String ApiError :=
  if goEqualFold kv.1 "Message" then
    match kv.2 with
    | .str s => .ok { acc with message := s }
    | _ => .error "json: cannot unmarshal value into field Message of type string"
  else if goEqualFold kv.1 "Reason" then
    match kv.2 with
    | .str s => .ok { acc with reason := s }
    | _ => .error "json: cannot unmarshal value into field Reason of type string"
  else .ok acc

/-- Decoding of a parsed JSON document into `ApiError`, per
`json.Unmarshal` into a struct: `null` leaves the zero value, an object
folds its members over the zero value, and any other document is a type
error. -/
def decodeApiError : Json → Except String ApiError
  | .null => .ok { message := "", reason := "" }
  | .obj fields => fields.foldlM setApiErrorField { message := "", reason := "" }
  | _ => .error "json: cannot unmarshal value into type ApiError"

/-- Go `json.Unmarshal(body, &ApiError{})`: syntactic parse of the whole
body, then decoding into the struct. -/
def jsonUnmarshalApiError (body : String) : Except String ApiError :=
  match parseJsonTop body with
  | none => .error "invalid character in JSON input"
  | some v => decodeApiError v

/-- Error value returned by `ParseError`: either the decoded `ApiError`
or the `json.Unmarshal` failure itself. -/
inductive GoError where
  | api (e : ApiError)
  | decode (msg : String)
deriving Repr, DecidableEq

/-- Embedding of `ParseError` (src/api/api.go lines 204–213), with
`none` playing the role of a nil Go error: a failed unmarshal returns
the unmarshal error, a successful one returns the decoded `ApiError` as
the error value (a non-nil interface value in Go, since it holds a
concrete `ApiError`). -/
def ParseError (body : String) : Option GoError :=
  match jsonUnmarshalApiError body with
  | .error e => some (.decode e)
  | .ok ikError => some (.api ikError)


/-! ## Helper lemmas: the quote/unquote round trip -/

theorem hexVal_hexDig : ∀ n < 16, hexVal (hexDig n) = some n := by decide

theorem readHex_u_escape (a b : Nat) (ha : a < 16) (hb : b < 16) (rest : List Char) :
    readHex 4 0 ('0' :: '0' :: hexDig a :: hexDig b :: rest) = some (a * 16 + b, rest) := by
  have h0 : hexVal '0' = some 0 := by decide
  simp [readHex, h0, hexVal_hexDig a ha, hexVal_hexDig b hb]

theorem unquoteBody_escapeChar (c : Char) (rest : List Char) (fuel : Nat) :
    unquoteBody (fuel + 1) (escapeChar c ++ rest) = (unquoteBody fuel rest).map (c :: ·) := by
  by_cases h1 : c = '"'
  · subst h1; simp [escapeChar, unquoteBody, unquoteEscape]
  by_cases h2 : c = '\\'
  · subst h2; simp [escapeChar, h1, unquoteBody, unquoteEscape]
  by_cases h3 : c = '\n'
  · subst h3; simp [escapeChar, h1, h2, unquoteBody, unquoteEscape]
  by_cases h4 : c = '\r'
  · subst h4; simp [escapeChar, h1, h2, h3, unquoteBody, unquoteEscape]
  by_cases h5 : c = '\t'
  · subst h5; simp [escapeChar, h1, h2, h3, h4, unquoteBody, unquoteEscape]
  by_cases h6 : c.toNat < 0x20
  · have hesc : escapeChar c
        = ['\\', 'u', '0', '0', hexDig (c.toNat / 16), hexDig (c.toNat % 16)] := by
      simp [escapeChar, h1, h2, h3, h4, h5, h6]
    have hv : goValidRune (c.toNat / 16 * 16 + c.toNat % 16) = true := by
      simp [goValidRune]; omega
    have hmod : c.toNat / 16 * 16 + c.toNat % 16 = c.toNat := by omega
    have hrh := readHex_u_escape (c.toNat / 16) (c.toNat % 16) (by omega) (by omega) rest
    have hv2 : goValidRune c.toNat = true := hmod ▸ hv
    rw [hesc]
    simp only [List.cons_append, List.nil_append]
    simp [unquoteBody, unquoteEscape, hrh, hv, hv2, hmod, Char.ofNat_toNat]
  by_cases h7 : c = '<'
  · subst h7
    simp [escapeChar, unquoteBody, unquoteEscape, readHex, hexVal, goValidRune]
  by_cases h8 : c = '>'
  · subst h8
    simp [escapeChar, h7, unquoteBody, unquoteEscape, readHex, hexVal, goValidRune]
  by_cases h9 : c = '&'
  · subst h9
    simp [escapeChar, h7, h8, unquoteBody, unquoteEscape, readHex, hexVal, goValidRune]
  by_cases h10 : c.toNat = 0x2028
  · have hesc : escapeChar c = ['\\', 'u', '2', '0', '2', '8'] := by
      simp [escapeChar, h1, h2, h3, h4, h5, h6, h7, h8, h9, h10]
    have hc : c = Char.ofNat 0x2028 := by rw [← h10, Char.ofNat_toNat]
    rw [hesc]
    simp only [List.cons_append, List.nil_append]
    simp [unquoteBody, unquoteEscape, readHex, hexVal, goValidRune]
    rw [← hc]
  by_cases h11 : c.toNat = 0x2029
  · have hesc : escapeChar c = ['\\', 'u', '2', '0', '2', '9'] := by
      simp [escapeChar, h1, h2, h3, h4, h5, h6, h7, h8, h9, h10, h11]
    have hc : c = Char.ofNat 0x2029 := by rw [← h11, Char.ofNat_toNat]
    rw [hesc]
    simp only [List.cons_append, List.nil_append]
    simp [unquoteBody, unquoteEscape, readHex, hexVal, goValidRune]
    rw [← hc]
  · have hesc : escapeChar c = [c] := by
      simp [escapeChar, h1, h2, h3, h4, h5, h6, h7, h8, h9, h10, h11]
    have hnl : ¬ c = '\n' := h3
    rw [hesc]
    simp only [List.cons_append, List.nil_append]
    simp [unquoteBody, h1, h2, hnl]

theorem escapeChar_length_pos (c : Char) : 0 < (escapeChar c).length := by
  unfold escapeChar
  by_cases h1 : c = '"'
  · rw [if_pos h1]; simp
  rw [if_neg h1]
  by_cases h2 : c = '\\'
  · rw [if_pos h2]; simp
  rw [if_neg h2]
  by_cases h3 : c = '\n'
  · rw [if_pos h3]; simp
  rw [if_neg h3]
  by_cases h4 : c = '\r'
  · rw [if_pos h4]; simp
  rw [if_neg h4]
  by_cases h5 : c = '\t'
  · rw [if_pos h5]; simp
  rw [if_neg h5]
  by_cases h6 : c.toNat < 0x20
  · rw [if_pos h6]; simp
  rw [if_neg h6]
  by_cases h7 : c = '<'
  · rw [if_pos h7]; simp
  rw [if_neg h7]
  by_cases h8 : c = '>'
  · rw [if_pos h8]; simp
  rw [if_neg h8]
  by_cases h9 : c = '&'
  · rw [if_pos h9]; simp
  rw [if_neg h9]
  by_cases h10 : c.toNat = 0x2028
  · rw [if_pos h10]; simp
  rw [if_neg h10]
  by_cases h11 : c.toNat = 0x2029
  · rw [if_pos h11]; simp
  rw [if_neg h11]
  simp

theorem length_le_length_flatMap_escapeChar (cs : List Char) :
    cs.length ≤ (cs.flatMap escapeChar).length := by
  induction cs with
  | nil => simp
  | cons c t ih =>
    have := escapeChar_length_pos c
    simp only [List.flatMap_cons, List.length_append, List.length_cons]
    omega

theorem unquoteBody_quoteData (cs : List Char) :
    ∀ k, unquoteBody (cs.length + k + 1) (cs.flatMap escapeChar) = some cs := by
  induction cs with
  | nil => intro k; simp [unquoteBody]
  | cons c t ih =>
    intro k
    have hlen : (c :: t).length + k + 1 = (t.length + (k + 1)) + 1 := by
      simp only [List.length_cons]; omega
    rw [hlen, List.flatMap_cons, unquoteBody_escapeChar]
    have h2 : t.length + (k + 1) = t.length + k + 1 := rfl
    rw [h2, ih k]
    rfl

theorem goUnquote_jsonQuote (s : String) : goUnquote (jsonQuote s) = some s := by
  show goUnquote ⟨jsonQuoteData s.data⟩ = some s
  rw [jsonQuoteData]
  have hlast : (s.data.flatMap escapeChar ++ ['"']).getLast? = some '"' :=
    List.getLast?_concat _
  have hdrop : (s.data.flatMap escapeChar ++ ['"']).dropLast = s.data.flatMap escapeChar :=
    List.dropLast_concat
  have hge := length_le_length_flatMap_escapeChar s.data
  have hfuel : (s.data.flatMap escapeChar).length + 1
      = s.data.length + ((s.data.flatMap escapeChar).length - s.data.length) + 1 := by
    omega
  simp [goUnquote, hlast, hdrop]
  refine ⟨s.data, ?_, rfl⟩
  have hsum : (List.map (List.length ∘ escapeChar) s.data).sum
      = (s.data.flatMap escapeChar).length := by simp
  rw [hsum, hfuel, unquoteBody_quoteData s.data _]

/-! ## Helper lemmas: the parameter encoder never fails and emits per-field blocks -/

theorem encodeParamValue_ne_error (v : Json) (e : String) :
    encodeParamValue v ≠ .error e := by
  unfold encodeParamValue
  dsimp only
  split
  · split <;> simp
  · simp

theorem encodeParamValue_eq_ok (v : Json) :
    encodeParamValue v = .ok (encodeValue v) := by
  unfold encodeValue
  cases h : encodeParamValue v with
  | ok s => rfl
  | error e => exact absurd h (encodeParamValue_ne_error v e)

theorem encodeArrayItems_ok (name : String) (items : List Json) :
    ∀ i, encodeArrayItems encodeParamValue name i items
      = .ok ((items.enumFrom i).map fun ie => (arrParamName name ie.1, encodeValue ie.2)) := by
  induction items with
  | nil => intro i; simp [encodeArrayItems]
  | cons x t ih =>
    intro i
    simp [encodeArrayItems, encodeParamValue_eq_ok x, ih (i + 1), List.enumFrom_cons]; rfl

theorem fieldToParams_ok (name : String) (v : Json) :
    fieldToParams encodeParamValue name v = .ok (fieldParamsTotal (name, v)) := by
  cases v with
  | arr items =>
    simp [fieldToParams, fieldParamsTotal, encodeArrayItems_ok name items 0,
      List.enum_eq_enumFrom]
  | null => simp [fieldToParams, fieldParamsTotal, encodeParamValue_eq_ok]; rfl
  | bool b => simp [fieldToParams, fieldParamsTotal, encodeParamValue_eq_ok]; rfl
  | num lit => simp [fieldToParams, fieldParamsTotal, encodeParamValue_eq_ok]; rfl
  | str s => simp [fieldToParams, fieldParamsTotal, encodeParamValue_eq_ok]; rfl
  | obj fields => simp [fieldToParams, fieldParamsTotal, encodeParamValue_eq_ok]; rfl

theorem structToParamsLoop_ok (fields : List (String × Json)) :
    structToParamsLoop encodeParamValue fields = .ok (paramsOf fields) := by
  induction fields with
  | nil => simp [structToParamsLoop, paramsOf]
  | cons f t ih =>
    obtain ⟨n, v⟩ := f
    simp [structToParamsLoop, fieldToParams_ok, ih, paramsOf, List.flatMap_cons]; rfl

/-! ## Claim theorems -/

/-- Claim C2: for every string-valued scalar field, the encoded
parameter value equals the original string exactly — the marshalled form
is a quoted string literal, which the encoder strips and unescapes, so
no surrounding JSON quotes and no double-escaping remain, and decoding
the encoded value trivially yields the original string (round-trip
identity).  This holds for all strings, in particular printable ASCII
and common Unicode ones; the parameter emitted for a string-valued field
`name` is exactly `(name, s)`. -/
theorem encodeParamValue_string_roundtrip (s name : String) :
    encodeParamValue (Json.str s) = Except.ok s ∧
    encodeValue (Json.str s) = s ∧
    fieldParamsTotal (name, Json.str s) = [(name, s)] := by
  have hm : jsonMarshal (Json.str s) = jsonQuote s := by simp [jsonMarshal]
  have hq : hasQuotePrefix (jsonQuote s) = true := by
    simp [hasQuotePrefix, jsonQuote, jsonQuoteData]
  have h1 : encodeParamValue (Json.str s) = Except.ok s := by
    simp [encodeParamValue, hm, hq, goUnquote_jsonQuote]
  have h2 : encodeValue (Json.str s) = s := by
    unfold encodeValue
    rw [h1]
  exact ⟨h1, h2, by simp [fieldParamsTotal, h2]⟩

/-- Claim C1: for every request struct with a slice-valued top-level
field of length N, `StructToParams` yields exactly N parameters for
that field — a contiguous block whose keys are `name[0] .. name[N-1]`
(zero-based, in that order) and whose values are the encodings of the
source elements in source order — independently of the other fields
around it. -/
theorem structToParams_array_field (pre post : List (String × Json))
    (name : String) (items : List Json) :
    StructToParams (.ok (pre ++ (name, Json.arr items) :: post))
      = .ok (paramsOf pre
          ++ ((items.enum).map fun ie => (arrParamName name ie.1, encodeValue ie.2))
          ++ paramsOf post) ∧
    ((items.enum).map fun ie => (arrParamName name ie.1, encodeValue ie.2)).length
      = items.length ∧
    ((items.enum).map fun ie => (arrParamName name ie.1, encodeValue ie.2)).map Prod.fst
      = (List.range items.length).map (arrParamName name) ∧
    ((items.enum).map fun ie => (arrParamName name ie.1, encodeValue ie.2)).map Prod.snd
      = items.map encodeValue := by
  refine ⟨?_, ?_, ?_, ?_⟩
  · simp [StructToParams, structToParamsLoop_ok, paramsOf, List.flatMap_append,
      List.flatMap_cons, fieldParamsTotal]
  · simp
  · rw [List.map_map]
    have hcomp : (Prod.fst ∘ fun ie : Nat × Json =>
        (arrParamName name ie.1, encodeValue ie.2)) = arrParamName name ∘ Prod.fst := rfl
    rw [hcomp, ← List.map_map, List.enum_eq_enumFrom, List.enumFrom_map_fst,
      List.range_eq_range']
  · rw [List.map_map]
    have hcomp : (Prod.snd ∘ fun ie : Nat × Json =>
        (arrParamName name ie.1, encodeValue ie.2)) = encodeValue ∘ Prod.snd := rfl
    rw [hcomp, ← List.map_map, List.enum_eq_enumFrom, List.enumFrom_map_snd]

/-- Claim C10: a top-level field whose generic-mapping value is JSON
null (for example a nil pointer or nil map field not marked omitempty)
is encoded as a scalar — `reflect.ValueOf(nil).Kind()` is not a slice —
and `json.Marshal(nil)` renders `null`, which has no quote prefix, so
the field contributes exactly the parameter `(name, "null")`: it is
neither skipped nor emitted as an empty string. -/
theorem structToParams_null_field (pre post : List (String × Json)) (name : String) :
    StructToParams (.ok (pre ++ (name, Json.null) :: post))
      = .ok (paramsOf pre ++ [(name, "null")] ++ paramsOf post) ∧
    encodeValue Json.null = "null" := by
  have hnull : encodeValue Json.null = "null" := by
    unfold encodeValue
    simp [encodeParamValue, jsonMarshal, hasQuotePrefix]
  refine ⟨?_, hnull⟩
  simp [StructToParams, structToParamsLoop_ok, paramsOf, List.flatMap_append,
    List.flatMap_cons, fieldParamsTotal, hnull]

theorem fieldParamsTotal_key (nv : String × Json) (k v : String)
    (h : (k, v) ∈ fieldParamsTotal nv) :
    k = nv.1 ∨ ∃ i, i < jsonArrayLen nv.2 ∧ k = arrParamName nv.1 i := by
  obtain ⟨n, val⟩ := nv
  cases val with
  | arr items =>
    right
    simp only [fieldParamsTotal] at h
    rw [List.mem_map] at h
    obtain ⟨⟨i, e⟩, hmem, heq⟩ := h
    rw [List.mk_mem_enum_iff_getElem?] at hmem
    injection heq with hk hv
    exact ⟨i, by simpa [jsonArrayLen] using (List.getElem?_eq_some_iff.mp hmem).1, hk.symm⟩
  | null => left; simp [fieldParamsTotal] at h; exact h.1
  | bool b => left; simp [fieldParamsTotal] at h; exact h.1
  | num lit => left; simp [fieldParamsTotal] at h; exact h.1
  | str s => left; simp [fieldParamsTotal] at h; exact h.1
  | obj fs => left; simp [fieldParamsTotal] at h; exact h.1

theorem valuesGet_eq_nil (ps : List (String × String)) (key : String)
    (h : ∀ p ∈ ps, p.1 ≠ key) : valuesGet ps key = [] := by
  rw [valuesGet, List.filterMap_eq_nil_iff]
  intro p hp
  simp [h p hp]

/-- Claim C3: a field whose serialization tag carries `omitempty` and
whose value is empty is dropped by the marshal step, so it is absent
from the generic mapping and `StructToParams` emits no parameter at all
under its name — not an empty-string parameter.  The last two hypotheses
rule out an unrelated field whose own name or generated array keys
collide with the omitted field's name. -/
theorem structToParams_omitted_empty_field (s : List GoField) (f : GoField)
    (_hmem : f ∈ s) (_homit : f.omitempty = true)
    (_hempty : jsonIsEmptyValue f.value = true)
    (hname : ∀ g ∈ s, g.name = f.name →
      g.omitempty = true ∧ jsonIsEmptyValue g.value = true)
    (hidx : ∀ g ∈ s, ∀ i, i < jsonArrayLen g.value → arrParamName g.name i ≠ f.name) :
    f.name ∉ (marshalStruct s).map Prod.fst ∧
    StructToParams (.ok (marshalStruct s)) = .ok (paramsOf (marshalStruct s)) ∧
    valuesGet (paramsOf (marshalStruct s)) f.name = [] := by
  have hkeys : ∀ nv ∈ marshalStruct s, nv.1 ≠ f.name ∧
      ∀ i, i < jsonArrayLen nv.2 → arrParamName nv.1 i ≠ f.name := by
    intro nv hnv
    rw [marshalStruct, List.mem_map] at hnv
    obtain ⟨g, hg, hgeq⟩ := hnv
    rw [List.mem_filter] at hg
    obtain ⟨hgs, hcond⟩ := hg
    cases hgeq
    constructor
    · intro heq
      obtain ⟨ho, he⟩ := hname g hgs heq
      simp [ho, he] at hcond
    · exact fun i hi => hidx g hgs i hi
  refine ⟨?_, by simp [StructToParams, structToParamsLoop_ok], ?_⟩
  · intro habs
    rw [List.mem_map] at habs
    obtain ⟨nv, hnv, hnveq⟩ := habs
    exact (hkeys nv hnv).1 hnveq
  · apply valuesGet_eq_nil
    intro p hp
    rw [paramsOf, List.mem_flatMap] at hp
    obtain ⟨nv, hnv, hpnv⟩ := hp
    obtain ⟨h1, h2⟩ := hkeys nv hnv
    rcases fieldParamsTotal_key nv p.1 p.2 hpnv with hk | ⟨i, hi, hk⟩
    · rw [hk]; exact h1
    · rw [hk]; exact h2 i hi

/-- Witness for C3: a struct with an omitempty empty string field `a`
and an ordinary field `b`; no parameter is emitted under `a`, and `a` is
absent from the generic mapping. -/
theorem structToParams_omitted_empty_field_witness :
    "a" ∉ (marshalStruct
        [⟨"a", true, Json.str ""⟩, ⟨"b", false, Json.num "1"⟩]).map Prod.fst ∧
    valuesGet (paramsOf (marshalStruct
        [⟨"a", true, Json.str ""⟩, ⟨"b", false, Json.num "1"⟩])) "a" = [] := by
  have h := structToParams_omitted_empty_field
    [⟨"a", true, Json.str ""⟩, ⟨"b", false, Json.num "1"⟩]
    ⟨"a", true, Json.str ""⟩
    (by simp) rfl (by decide)
    (by
      intro g hg heq
      rcases List.mem_cons.mp hg with rfl | hg2
      · exact ⟨rfl, by decide⟩
      rcases List.mem_cons.mp hg2 with rfl | hg3
      · simp at heq
      · simp at hg3)
    (by
      intro g hg i hi
      rcases List.mem_cons.mp hg with rfl | hg2
      · simp [jsonArrayLen] at hi
      rcases List.mem_cons.mp hg2 with rfl | hg3
      · simp [jsonArrayLen] at hi
      · simp at hg3)
  exact ⟨h.1, h.2.2⟩

/-- Claim C4: a failure to serialize the struct into the generic
mapping is returned as-is with a nil (absent) parameter collection, and
a failure to serialize any individual field value makes the whole call
return an error — the `Except.error` result carries no parameter list,
so no partial parameter set is ever produced.  The second part is stated
for an arbitrary element encoder, since `encodeParamValue` itself never
fails on interchange values. -/
theorem structToParams_error_aborts :
    (∀ e, StructToParams (.error e) = .error e) ∧
    (∀ (enc : Json → Except String String) (fields : List (String × Json))
      (name : String) (v : Json) (e : String),
      (name, v) ∈ fields → fieldToParams enc name v = .error e →
      (∃ e2, structToParamsLoop enc fields = .error e2) ∧
      ∀ ps, structToParamsLoop enc fields ≠ .ok ps) := by
  constructor
  · intro e; rfl
  · intro enc fields
    induction fields with
    | nil =>
      intro name v e hmem hf
      simp at hmem
    | cons hd tl ih =>
      intro name v e hmem hf
      obtain ⟨n0, v0⟩ := hd
      have key : ∃ e2, structToParamsLoop enc ((n0, v0) :: tl) = .error e2 := by
        rcases List.mem_cons.mp hmem with heq | htl
        · injection heq with hn hv
          subst hn; subst hv
          exact ⟨e, by simp [structToParamsLoop, hf]; rfl⟩
        · cases hhd : fieldToParams enc n0 v0 with
          | error e0 => exact ⟨e0, by simp [structToParamsLoop, hhd]; rfl⟩
          | ok ps0 =>
            obtain ⟨⟨e2, h2⟩, _⟩ := ih name v e htl hf
            exact ⟨e2, by simp [structToParamsLoop, hhd, h2]; rfl⟩
      obtain ⟨e2, h2⟩ := key
      exact ⟨⟨e2, h2⟩, fun ps hps => by rw [h2] at hps; exact Except.noConfusion hps⟩

/-- Witness for C4: an unmarshal failure is propagated verbatim with no
parameters, and a failing element encoder aborts the loop on a
one-field mapping. -/
theorem structToParams_error_aborts_witness :
    StructToParams (.error "unmarshal failed") = .error "unmarshal failed" ∧
    (∃ e2, structToParamsLoop (fun _ => .error "marshal failed")
      [("a", Json.null)] = .error e2) := by
  refine ⟨structToParams_error_aborts.1 "unmarshal failed", ?_⟩
  exact (structToParams_error_aborts.2 (fun _ => .error "marshal failed")
    [("a", Json.null)] "a" Json.null "marshal failed" (by simp) rfl).1

/-- Claim C5: the parameter set is a pure function of the generic
mapping's entries, independent of the (unspecified) order in which Go
enumerates the map: any two enumeration orders of the same fields give
successful results with identical per-key value multisets (and hence
identical key sets); array element values stay in source order within
each field's block by `structToParams_array_field`. -/
theorem structToParams_deterministic (fields fields2 : List (String × Json))
    (h : fields.Perm fields2) :
    StructToParams (.ok fields) = .ok (paramsOf fields) ∧
    StructToParams (.ok fields2) = .ok (paramsOf fields2) ∧
    (paramsOf fields).Perm (paramsOf fields2) ∧
    ∀ key, (valuesGet (paramsOf fields) key).Perm (valuesGet (paramsOf fields2) key) := by
  have hperm : (paramsOf fields).Perm (paramsOf fields2) :=
    List.Perm.flatMap_right fieldParamsTotal h
  exact ⟨by simp [StructToParams, structToParamsLoop_ok],
    by simp [StructToParams, structToParamsLoop_ok],
    hperm,
    fun key => List.Perm.filterMap _ hperm⟩

/-- Witness for C5: swapping two fields of a two-field mapping leaves
the per-key values unchanged. -/
theorem structToParams_deterministic_witness :
    (paramsOf [("a", Json.str "1"), ("b", Json.str "2")]).Perm
      (paramsOf [("b", Json.str "2"), ("a", Json.str "1")]) ∧
    ∀ key, (valuesGet (paramsOf [("a", Json.str "1"), ("b", Json.str "2")]) key).Perm
      (valuesGet (paramsOf [("b", Json.str "2"), ("a", Json.str "1")]) key) := by
  have h := structToParams_deterministic
    [("a", Json.str "1"), ("b", Json.str "2")]
    [("b", Json.str "2"), ("a", Json.str "1")]
    (List.Perm.swap ("b", Json.str "2") ("a", Json.str "1") [])
  exact ⟨h.2.2.1, h.2.2.2⟩

theorem buildPathLoop_append (parts : List String) :
    ∀ acc, buildPathLoop acc parts
      = acc ++ (parts.filter fun p => p.length > 0).map trimSlash := by
  induction parts with
  | nil => intro acc; simp [buildPathLoop]
  | cons p t ih =>
    intro acc
    by_cases hp : p.length > 0
    · simp [buildPathLoop, hp, ih, List.filter_cons]
    · simp [buildPathLoop, hp, ih, List.filter_cons]

/-- Counterexample to claim C6 as stated: a part consisting only of
separators is NOT dropped — `BuildPath` tests emptiness before trimming,
so `"/"` passes the length test, is trimmed to the empty segment, and
the join produces a doubled separator.  Under the claim the result would
have been `files/details`. -/
theorem buildPath_separator_only_not_dropped :
    BuildPath ["/files/", "/", "details"] = "files//details" ∧
    BuildPath ["/files/", "/", "details"] ≠ "files/details" := by
  constructor
  · decide
  · decide

/-- Claim C6 (amended): `BuildPath` drops parts that are empty BEFORE
trimming, trims leading and trailing `/` from each remaining part, and
joins all trimmed results — including those that became empty, which
yield consecutive separators — with a single `/`; the specification's
example still holds: `BuildPath("/files/", "", "123/", "/details")`
returns `files/123/details`. -/
theorem buildPath_characterization (parts : List String) :
    BuildPath parts
      = String.intercalate "/" ((parts.filter fun p => p.length > 0).map trimSlash) ∧
    BuildPath ["/files/", "", "123/", "/details"] = "files/123/details" := by
  refine ⟨?_, by decide⟩
  rw [BuildPath, buildPathLoop_append]
  simp

/-- Claim C7: `SetResponseMeta` with an absent (nil) response performs
no `SetMeta` invocation at all; with a present response it invokes
`SetMeta` exactly once, copying header and status code verbatim, with
the read body on success and an empty body when the read fails (rather
than aborting). -/
theorem setResponseMeta_spec :
    SetResponseMeta none = [] ∧
    (∀ hdr sc b, SetResponseMeta (some ⟨hdr, sc, .ok b⟩)
      = [{ header := hdr, statusCode := sc, body := b }]) ∧
    (∀ hdr sc e, SetResponseMeta (some ⟨hdr, sc, .error e⟩)
      = [{ header := hdr, statusCode := sc, body := "" }]) :=
  ⟨rfl, fun _ _ _ => rfl, fun _ _ _ => rfl⟩

/-- Claim C8: `ParseError` never returns a nil error: when the body
decodes as the `ApiError` structure the decoded value is returned as the
error (its `Error()` text being its message), and when decoding fails
the decoding failure itself is returned; in particular `not json` yields
a decode error, which is not an `ApiError` (so in particular not one
with an empty message). -/
theorem parseError_spec :
    (∀ body, (ParseError body).isSome = true) ∧
    (∀ body a, jsonUnmarshalApiError body = .ok a →
      ParseError body = some (.api a) ∧ a.Error = a.message) ∧
    (∀ body e, jsonUnmarshalApiError body = .error e →
      ParseError body = some (.decode e)) ∧
    (∃ e, ParseError "not json" = some (.decode e)) ∧
    (∀ a, ParseError "not json" ≠ some (.api a)) ∧
    ParseError "\x7b\"message\":\"not found\"\x7d"
      = some (.api { message := "not found", reason := "" }) := by
  refine ⟨?_, ?_, ?_, ?_, ?_, ?_⟩
  · intro body
    unfold ParseError
    cases jsonUnmarshalApiError body <;> rfl
  · intro body a h
    refine ⟨?_, rfl⟩
    unfold ParseError
    rw [h]
  · intro body e h
    unfold ParseError
    rw [h]
  · exact ⟨"invalid character in JSON input", by decide⟩
  · intro a h
    have hne : ParseError "not json"
        = some (.decode "invalid character in JSON input") := by decide
    rw [hne] at h
    simp at h
  · decide

/-- Witness for C8: concrete bodies exercising both branches through the
theorem itself. -/
theorem parseError_spec_witness :
    (ParseError "null").isSome = true ∧
    ParseError "null" = some (.api { message := "", reason := "" }) ∧
    ParseError "not json" = some (.decode "invalid character in JSON input") := by
  refine ⟨parseError_spec.1 "null", ?_, ?_⟩
  · exact (parseError_spec.2.1 "null" { message := "", reason := "" } (by rfl)).1
  · exact parseError_spec.2.2.1 "not json" "invalid character in JSON input" (by rfl)

theorem urlParseAuthorityAndPath_scheme (scheme rest1 : String)
    (fq : Bool) (rq : String) (u : URLStruct)
    (h : urlParseAuthorityAndPath scheme rest1 fq rq = .ok u) :
    u.scheme = scheme := by
  unfold urlParseAuthorityAndPath at h
  dsimp only at h
  split at h
  · split at h
    · simp at h
    · split at h
      · simp at h
      · injection h with h2
        subst h2
        rfl
  · split at h
    · simp at h
    · injection h with h2
      subst h2
      rfl

theorem urlParseWithScheme_scheme (scheme rest0 : String) (u : URLStruct)
    (h : urlParseWithScheme scheme rest0 = .ok u) : u.scheme = scheme := by
  unfold urlParseWithScheme at h
  dsimp only at h
  split at h
  · split at h
    · injection h with h2
      subst h2
      rfl
    · split at h
      · simp at h
      · exact urlParseAuthorityAndPath_scheme _ _ _ _ _ h
  · exact urlParseAuthorityAndPath_scheme _ _ _ _ _ h

theorem urlParseNoFrag_noscheme (u0 rest : String) (u : URLStruct)
    (hg : getScheme u0 = .ok ("", rest)) (h : urlParseNoFrag u0 = .ok u) :
    u.scheme = "" := by
  unfold urlParseNoFrag at h
  split at h
  · simp at h
  · split at h
    · injection h with h2
      subst h2
      rfl
    · rw [hg] at h
      exact (urlParseWithScheme_scheme _ _ _ h).trans rfl

theorem urlParse_noscheme (s rest : String) (u : URLStruct)
    (hg : getScheme (splitAtChar s '#').1 = .ok ("", rest))
    (h : urlParse s = .ok u) : u.scheme = "" := by
  unfold urlParse at h
  dsimp only at h
  split at h
  · simp at h
  · rename_i base hbase
    split at h
    · injection h with h2
      subst h2
      exact urlParseNoFrag_noscheme _ _ _ hg hbase
    · split at h
      · simp at h
      · injection h with h2
        subst h2
        exact urlParseNoFrag_noscheme _ _ base hg hbase

/-- Claim C9: `IsValidURL` is true exactly when the candidate parses
under `net/url.Parse` and has a non-empty scheme; any string whose
pre-fragment scheme scan comes back empty — bare local paths, strings
with characters invalid in a scheme — yields false.  The
specification's three examples hold, and so do three post-scheme parse
failures (an invalid host character, a malformed percent-escape in the
host, an invalid port), where the parse error makes `IsValidURL`
false despite the non-empty scheme. -/
theorem isValidURL_spec :
    (∀ s, IsValidURL s = true ↔ ∃ u, urlParse s = .ok u ∧ ¬ u.scheme = "") ∧
    (∀ s rest, getScheme (splitAtChar s '#').1 = .ok ("", rest) →
      IsValidURL s = false) ∧
    IsValidURL "https://example.com/x" = true ∧
    IsValidURL "not a url" = false ∧
    IsValidURL "/local/path" = false ∧
    IsValidURL "http://a b.com/" = false ∧
    IsValidURL "http://%zz" = false ∧
    IsValidURL "http://host:badport/" = false := by
  refine ⟨?_, ?_, by decide, by decide, by decide, by decide, by decide, by decide⟩
  · intro s
    unfold IsValidURL
    cases h : urlParse s with
    | error e => simp
    | ok u => simp
  · intro s rest h
    unfold IsValidURL
    cases hp : urlParse s with
    | error e => rfl
    | ok u =>
      have hs := urlParse_noscheme s rest u h hp
      simp [hs]

/-- Witness for C9: a scheme-less string refuted through the theorem,
and the equivalence instantiated at a concrete URL. -/
theorem isValidURL_spec_witness :
    IsValidURL "foo" = false ∧
    (IsValidURL "https://example.com/x" = true ↔
      ∃ u, urlParse "https://example.com/x" = .ok u ∧ ¬ u.scheme = "") := by
  refine ⟨isValidURL_spec.2.1 "foo" "foo" (by rfl), isValidURL_spec.1 _⟩
